import Mathlib

/-!
Shallow embedding of `cyberbrain/flow.py`: the trace-graph data model
(`TrackingMetadata`, `Node`, `Flow`) and its diffing engine
(`get_and_update_var_changes`, `update_var_changes_before_return`,
`add_tracking`, `get_args`, `_update_target_id`), together with theorems
checking the natural-language specification against this code.

Python-level conventions used throughout the embedding:
- dictionaries are association lists with first-match lookup;
- Python runtime failures (AttributeError, IndexError, AssertionError,
  KeyError, TypeError, ValueError) are constructors of `PyErr`, and a
  fallible operation returns `Except PyErr`;
- Python truthiness: `None` and the empty string / empty dict are falsy.
-/

namespace Cyberbrain

/-- Modelled from the spec: `FrameID` from `basis.py` (not under `src/`).
A scope-id is an opaque comparable identifier for one activation instance;
the code builds it from a tuple of ints (`FrameID(tuple)`), so we model it
as a list of naturals compared for equality. -/
structure FrameID where
  chain : List Nat
deriving DecidableEq, Repr

/-- Modelled from the spec: `ID` from `basis.py` (not under `src/`).
An Identifier is a (name, scope-id) pair with equality over both fields. -/
structure ID where
  name : String
  frame : FrameID
deriving DecidableEq, Repr

/-- A concrete universe of Python runtime values sufficient for the
snapshots appearing in the specification's scenarios. -/
inductive PyValue where
  | int (n : Int)
  | str (s : String)
  | none
deriving DecidableEq, Repr

/-- Python runtime failures raised by the code under `src/`, plus
`malformedTargetError` standing for the structured `MalformedTargetError`
class the specification postulates (no such class exists in the code: it is
included so that statements about it can be written down). -/
inductive PyErr where
  | attributeError
  | indexError
  | assertionError
  | keyError
  | typeError
  | valueError
  | malformedTargetError
deriving DecidableEq, Repr

/-- The `VarAppearance`: variable appears in current frame (flow.py:14). -/
structure VarAppearance where
  id : ID
  value : PyValue
deriving DecidableEq, Repr

/-- The `VarModification`: variable value modified in current frame (flow.py:22). -/
structure VarModification where
  id : ID
  old_value : PyValue
  new_value : PyValue
deriving DecidableEq, Repr

/-- The `VarSwitch`: variable switches at callsite (flow.py:31). -/
structure VarSwitch where
  arg_id : ID
  param_id : ID
  value : PyValue
deriving DecidableEq, Repr

/-- An event yielded by `Node.get_and_update_var_changes`, which yields
`VarAppearance` or `VarModification` objects. -/
inductive VarChange where
  | appearance (a : VarAppearance)
  | modification (m : VarModification)
deriving DecidableEq, Repr

/-- First-match lookup in an association list, the model of `dict.get` /
`dict.__getitem__` on `Dict[ID, v]`. -/
def lookupId {α : Type} : List (ID × α) → ID → Option α
  | [], _ => Option.none
  | (k, v) :: rest, i => if k = i then Option.some v else lookupId rest i

/-- The `d[k]` on a Python dict: raises `KeyError` when the key is absent. -/
def getItem {α : Type} (d : List (ID × α)) (i : ID) : Except PyErr α :=
  match lookupId d i with
  | Option.none => Except.error PyErr.keyError
  | Option.some v => Except.ok v

/-- Mini Python expression AST, covering the node shapes relevant to
`Flow._update_target_id` (flow.py:207): names, attribute accesses, calls,
and non-identifier expressions such as `1 + 2`. -/
inductive PyExpr where
  | name (id : String)
  | attributeExpr (value : PyExpr) (attr : String)
  | call (func : PyExpr) (args : List PyExpr)
  | constant (n : Int)
  | binOp (left : PyExpr) (right : PyExpr)

/-- Mini Python statement AST. -/
inductive PyStmt where
  | exprStmt (value : PyExpr)
  | passStmt

/-- Mini Python module AST (`ast.parse` result). -/
structure PyModule where
  body : List PyStmt

/-- The `stmt.value`: only an expression statement carries a `.value` field;
any other statement raises AttributeError. -/
def stmtValue : PyStmt → Except PyErr PyExpr
  | PyStmt.exprStmt v => Except.ok v
  | PyStmt.passStmt => Except.error PyErr.attributeError

/-- The `expr.func`: only a call node carries `.func`. -/
def exprFunc : PyExpr → Except PyErr PyExpr
  | PyExpr.call f _ => Except.ok f
  | _ => Except.error PyErr.attributeError

/-- The `expr.args`: only a call node carries `.args`. -/
def exprArgs : PyExpr → Except PyErr (List PyExpr)
  | PyExpr.call _ args => Except.ok args
  | _ => Except.error PyErr.attributeError

/-- The `expr.value`: only an attribute node carries `.value`. -/
def exprValue : PyExpr → Except PyErr PyExpr
  | PyExpr.attributeExpr v _ => Except.ok v
  | _ => Except.error PyErr.attributeError

/-- The `expr.id`: only a name node carries `.id`. -/
def exprId : PyExpr → Except PyErr String
  | PyExpr.name s => Except.ok s
  | _ => Except.error PyErr.attributeError

/-- The `xs[0]` on a Python list: IndexError when empty. -/
def listGet0 {α : Type} : List α → Except PyErr α
  | [] => Except.error PyErr.indexError
  | x :: _ => Except.ok x

/-- Python truthiness of an optional string: `None` and `""` are falsy. -/
def strTruthy : Option String → Bool
  | Option.none => false
  | Option.some s => !s.isEmpty

/-- Python truthiness of an optional dict: `None` and `{}` are falsy. -/
def dictTruthy {α : Type} : Option (List α) → Bool
  | Option.none => false
  | Option.some l => !l.isEmpty

/-- The `TrackingMetadata` (flow.py:40): metadata stored for one step.
`param_to_arg` maps a callee-parameter ID to the caller-argument IDs bound
to it; `arg_to_param` is `Option.some` exactly when the constructor built it
(i.e. when `param_to_arg` was truthy). `tracking` is a set of IDs modelled
as a duplicate-free list; the event fields are the append-only lists. -/
structure TrackingMetadata where
  code_str : String
  code_ast : PyModule
  param_to_arg : Option (List (ID × List ID))
  arg_to_param : Option (List (ID × ID))
  tracking : List ID
  var_appearances : List VarAppearance
  var_modifications : List VarModification
  var_switches : List VarSwitch
  data : List (ID × PyValue)
  data_before_return : Option (List (ID × PyValue))

/-- The `self.arg_to_param[arg] = param` over all `param, args` pairs
(flow.py:57-60); dict insertion overwrites an existing binding in place. -/
def dictInsert (m : List (ID × ID)) (k : ID) (v : ID) : List (ID × ID) :=
  match m with
  | [] => [(k, v)]
  | (k', v') :: rest =>
      if k' = k then (k', v) :: rest else (k', v') :: dictInsert rest k v

/-- The nested loop building `arg_to_param` (flow.py:57-60): for each
`param, args` pair in order, for each `arg` in order, bind `arg ↦ param`. -/
def buildArgToParam (l : List (ID × List ID)) : List (ID × ID) :=
  l.foldl (fun m pa => pa.2.foldl (fun m' arg => dictInsert m' arg pa.1) m) []

/-- Modelled from the spec: `utils.parse_code_str` and `astor.to_source`
(`utils.py` is not under `src/`; `astor` is an external library). The spec
treats parsing as an external capability consumed by the core, so the
constructor takes both as explicit function arguments. `has_diff` from
`utils.py` is likewise missing; the spec describes it as structural deep
inequality, which on our value universe is decidable inequality. -/
def has_diff (new old : PyValue) : Bool := new ≠ old

/-- The `TrackingMetadata.__init__` (flow.py:43-75). `code_str`/`code_ast` are
the optional constructor arguments; `parse` models `utils.parse_code_str`
and `toSource` models `astor.to_source` (external capabilities). Raises
ValueError when neither `code_str` nor `code_ast` is truthy. -/
def TrackingMetadata.mk? (data : List (ID × PyValue)) (code_str : Option String)
    (code_ast : Option PyModule) (param_to_arg : Option (List (ID × List ID)))
    (data_before_return : Option (List (ID × PyValue)))
    (parse : String → PyModule) (toSource : PyModule → String) :
    Except PyErr TrackingMetadata :=
  if !(strTruthy code_str || code_ast.isSome) then
    Except.error PyErr.valueError
  else
    let cs : String :=
      match code_str, code_ast with
      | Option.some s, _ => if s.isEmpty then toSource (code_ast.getD ⟨[]⟩) else s
      | Option.none, Option.some a => toSource a
      | Option.none, Option.none => ""
    let ca : PyModule :=
      match code_ast with
      | Option.some a => a
      | Option.none => parse (code_str.getD "")
    Except.ok
      { code_str := cs
        code_ast := ca
        param_to_arg := param_to_arg
        arg_to_param :=
          if dictTruthy param_to_arg then
            Option.some (buildArgToParam (param_to_arg.getD []))
          else Option.none
        tracking := []
        var_appearances := []
        var_modifications := []
        var_switches := []
        data := data
        data_before_return := data_before_return }

/-- The `TrackingMetadata.get_args` (flow.py:87): the union (concatenation, as
membership is what matters) of the argument IDs over all parameters;
AttributeError when `param_to_arg` is `None` (`None.values()`). -/
def TrackingMetadata.get_args (md : TrackingMetadata) : Except PyErr (List ID) :=
  match md.param_to_arg with
  | Option.none => Except.error PyErr.attributeError
  | Option.some l => Except.ok (l.foldr (fun pa acc => pa.2 ++ acc) [])

/-- The `set.add` on the tracking set: no-op when already present. -/
def trackingAdd (l : List ID) (i : ID) : List ID :=
  if i ∈ l then l else l ++ [i]

/-- The `TrackingMetadata.add_tracking` (flow.py:102-110): each new id is added
to `tracking` only if it exists in `data`; others are silently dropped. -/
def TrackingMetadata.add_tracking (md : TrackingMetadata) (new_ids : List ID) :
    TrackingMetadata :=
  { md with
    tracking := new_ids.foldl
      (fun t i => if (lookupId md.data i).isSome then trackingAdd t i else t)
      md.tracking }

/-- The `Node` (flow.py:113): frame id, per-construction name and metadata.
The relation links (`prev`/`next`/`step_into`/`returned_from`) play no role
in the claims about the diff engine and are omitted from the state. -/
structure Node where
  frame_id : FrameID
  name : String
  metadata : TrackingMetadata

/-- The `Node.__init__` (flow.py:118-128): takes the process-wide counter value
(`_name_gen`), names the node `str(counter)` and returns the successor
counter state. Metadata construction is taken already performed. -/
def Node.mkNode (counter : Nat) (frame_id : FrameID) (md : TrackingMetadata) :
    Node × Nat :=
  ({ frame_id := frame_id, name := toString counter, metadata := md }, counter + 1)

/-- Appending one `VarAppearance` (`add_var_appearances`, flow.py:90). -/
def Node.addVarAppearance (n : Node) (a : VarAppearance) : Node :=
  { n with metadata :=
      { n.metadata with var_appearances := n.metadata.var_appearances ++ [a] } }

/-- Appending one `VarModification` (`add_var_modifications`, flow.py:93). -/
def Node.addVarModification (n : Node) (m : VarModification) : Node :=
  { n with metadata :=
      { n.metadata with var_modifications := n.metadata.var_modifications ++ [m] } }

/-- The loop body sequence of `Node.get_and_update_var_changes`
(flow.py:163-173), iterating over `other.tracking`: `old_value` is
`self.data.get(var_id, _dummy)` (`Option.none` models `_dummy`),
`new_value` is `other.data[var_id]`; an absent `old` records and yields a
`VarAppearance` on `self`, a deep difference records and yields a
`VarModification` on `self`. -/
def guvcGo (odata : List (ID × PyValue)) :
    Node → List ID → Except PyErr (Node × List VarChange)
  | selfN, [] => Except.ok (selfN, [])
  | selfN, var_id :: rest =>
    match getItem odata var_id with
    | Except.error e => Except.error e
    | Except.ok new_value =>
      match lookupId selfN.metadata.data var_id with
      | Option.none =>
          match guvcGo odata (selfN.addVarAppearance ⟨var_id, new_value⟩) rest with
          | Except.error e => Except.error e
          | Except.ok (fin, evs) =>
              Except.ok (fin, VarChange.appearance ⟨var_id, new_value⟩ :: evs)
      | Option.some old_value =>
          if has_diff new_value old_value then
            match guvcGo odata
                (selfN.addVarModification ⟨var_id, old_value, new_value⟩) rest with
            | Except.error e => Except.error e
            | Except.ok (fin, evs) =>
                Except.ok (fin,
                  VarChange.modification ⟨var_id, old_value, new_value⟩ :: evs)
          else guvcGo odata selfN rest

/-- The `Node.get_and_update_var_changes` (flow.py:155-173): asserts the two
nodes share a frame, then runs the comparison loop; returns the updated
receiver (`self`) and the yielded change events in order. -/
def Node.get_and_update_var_changes (selfN other : Node) :
    Except PyErr (Node × List VarChange) :=
  if selfN.frame_id = other.frame_id then
    guvcGo other.metadata.data selfN other.metadata.tracking
  else Except.error PyErr.assertionError

/-- The `self.data_before_return[var_id]` (flow.py:181): subscripting `None`
raises TypeError; a missing key raises KeyError. -/
def dbrGet (dbr : Option (List (ID × PyValue))) (i : ID) : Except PyErr PyValue :=
  match dbr with
  | Option.none => Except.error PyErr.typeError
  | Option.some m => getItem m i

/-- The loop body sequence of `Node.update_var_changes_before_return`
(flow.py:179-187), iterating over `self.tracking`: `new_value` is
`self.data_before_return[var_id]` via `dbrGet`. -/
def uvcbrGo (dbr : Option (List (ID × PyValue))) :
    Node → List ID → Except PyErr Node
  | selfN, [] => Except.ok selfN
  | selfN, var_id :: rest =>
    match dbrGet dbr var_id with
    | Except.error e => Except.error e
    | Except.ok new_value =>
      match lookupId selfN.metadata.data var_id with
      | Option.none =>
          uvcbrGo dbr (selfN.addVarAppearance ⟨var_id, new_value⟩) rest
      | Option.some old_value =>
          if has_diff new_value old_value then
            uvcbrGo dbr (selfN.addVarModification ⟨var_id, old_value, new_value⟩) rest
          else
            uvcbrGo dbr selfN rest

/-- The `Node.update_var_changes_before_return` (flow.py:175-187). The guard
`if self.data_before_return is None: pass` has no effect (its body is
`pass`, not `return`), so the loop runs regardless — reproduced faithfully. -/
def Node.update_var_changes_before_return (selfN : Node) : Except PyErr Node :=
  uvcbrGo selfN.metadata.data_before_return selfN selfN.metadata.tracking

/-- The `Flow._update_target_id` (flow.py:207-216) applied to the parsed module
of the target's stripped source: `body[0].value.func.value.id` must equal
`"cyberbrain"` (bare `assert`), then `ID(body[0].value.args[0].id,
target.frame_id)` is added to the target's tracking via `add_tracking`. -/
def updateTargetId (m : PyModule) (target : Node) : Except PyErr Node :=
  (listGet0 m.body).bind fun stmt =>
  (stmtValue stmt).bind fun v =>
  (exprFunc v).bind fun f =>
  (exprValue f).bind fun fv =>
  (exprId fv).bind fun fid =>
  if fid = "cyberbrain" then
    (exprArgs v).bind fun args =>
    (listGet0 args).bind fun arg0 =>
    (exprId arg0).bind fun aid =>
    Except.ok
      { target with metadata :=
          target.metadata.add_tracking [⟨aid, target.frame_id⟩] }
  else Except.error PyErr.assertionError

/-- The `Flow.__init__` target resolution (flow.py:201-216): reparses the
target's stripped source via the external `parse` capability and resolves
the tracked identifier. (Setting `start.prev = ROOT` does not touch the
state modelled here.) -/
def Flow.updateTarget (parse : String → PyModule) (target : Node) :
    Except PyErr Node :=
  updateTargetId (parse target.metadata.code_str.trim) target

/-- The `VarAppearance` events among a yielded change list, in order. -/
def appearancesOf (evs : List VarChange) : List VarAppearance :=
  evs.filterMap fun e =>
    match e with
    | VarChange.appearance a => Option.some a
    | VarChange.modification _ => Option.none

/-- The `VarModification` events among a yielded change list, in order. -/
def modificationsOf (evs : List VarChange) : List VarModification :=
  evs.filterMap fun e =>
    match e with
    | VarChange.appearance _ => Option.none
    | VarChange.modification m => Option.some m

/-- The identifier a change event is about. -/
def changeId : VarChange → ID
  | VarChange.appearance a => a.id
  | VarChange.modification m => m.id

/-- Reading `arg_to_param[a]` through the optional field (`Option.none` when
the constructor did not build the inverse map). -/
def argLookup (md : TrackingMetadata) (a : ID) : Option ID :=
  match md.arg_to_param with
  | Option.none => Option.none
  | Option.some m => lookupId m a

/-- Constructing a sequence of nodes in program order, threading the
process-wide `_name_gen` counter through the constructions. -/
def mkNodes : Nat → List (FrameID × TrackingMetadata) → List Node × Nat
  | c, [] => ([], c)
  | c, (f, md) :: rest =>
    let nc := Node.mkNode c f md
    let rec_ := mkNodes nc.2 rest
    (nc.1 :: rec_.1, rec_.2)

/-- A default metadata value used only to totalize extraction from
`Except` results at concrete inputs. -/
def mdDefault : TrackingMetadata :=
  { code_str := ""
    code_ast := ⟨[]⟩
    param_to_arg := Option.none
    arg_to_param := Option.none
    tracking := []
    var_appearances := []
    var_modifications := []
    var_switches := []
    data := []
    data_before_return := Option.none }

/-! ### Concrete sample objects used to settle claims at specific inputs -/

def fid0 : FrameID := ⟨[0]⟩

def xId : ID := ⟨"x", fid0⟩

def yId : ID := ⟨"y", fid0⟩

def pId : ID := ⟨"p", fid0⟩

def qId : ID := ⟨"q", fid0⟩

def zId : ID := ⟨"z", fid0⟩

def wId : ID := ⟨"w", fid0⟩

/-! ### Lemmas about tracking updates -/

theorem mem_trackingAdd (t : List ID) (j i : ID) :
    i ∈ trackingAdd t j ↔ i ∈ t ∨ i = j := by
  unfold trackingAdd
  by_cases h : j ∈ t
  · simp only [if_pos h]
    constructor
    · exact Or.inl
    · rintro (hi | rfl)
      · exact hi
      · exact h
  · simp [if_neg h]

theorem mem_addTracking_foldl (data : List (ID × PyValue)) (ids : List ID) :
    ∀ (t : List ID) (i : ID),
      i ∈ ids.foldl
          (fun t j => if (lookupId data j).isSome then trackingAdd t j else t) t ↔
        i ∈ t ∨ (i ∈ ids ∧ (lookupId data i).isSome) := by
  induction ids with
  | nil => simp
  | cons j rest ih =>
    intro t i
    simp only [List.foldl_cons]
    rw [ih]
    by_cases hj : (lookupId data j).isSome
    · simp only [if_pos hj, mem_trackingAdd]
      constructor
      · rintro ((hi | rfl) | hrest)
        · exact Or.inl hi
        · exact Or.inr ⟨List.mem_cons_self _ _, hj⟩
        · exact Or.inr ⟨List.mem_cons_of_mem _ hrest.1, hrest.2⟩
      · rintro (hi | ⟨hmem, hsome⟩)
        · exact Or.inl (Or.inl hi)
        · rcases List.mem_cons.mp hmem with rfl | hr
          · exact Or.inl (Or.inr rfl)
          · exact Or.inr ⟨hr, hsome⟩
    · simp only [if_neg hj]
      constructor
      · rintro (hi | hrest)
        · exact Or.inl hi
        · exact Or.inr ⟨List.mem_cons_of_mem _ hrest.1, hrest.2⟩
      · rintro (hi | ⟨hmem, hsome⟩)
        · exact Or.inl hi
        · rcases List.mem_cons.mp hmem with rfl | hr
          · exact absurd hsome hj
          · exact Or.inr ⟨hr, hsome⟩

/-- C6: for every step, tracking stays inside the domain of its snapshot:
`add_tracking` adds a given identifier to `tracking` exactly when it is
present in `data` and silently drops the rest, it never touches `data`,
and it preserves `tracking ⊆ domain(data)`. -/
theorem C6_tracking_subset_domain (md : TrackingMetadata) (ids : List ID)
    (hsub : ∀ i ∈ md.tracking, (lookupId md.data i).isSome) :
    (∀ i, i ∈ (md.add_tracking ids).tracking ↔
        i ∈ md.tracking ∨ (i ∈ ids ∧ (lookupId md.data i).isSome)) ∧
    (∀ i ∈ (md.add_tracking ids).tracking, (lookupId md.data i).isSome) ∧
    (md.add_tracking ids).data = md.data := by
  have hmem : ∀ i, i ∈ (md.add_tracking ids).tracking ↔
      i ∈ md.tracking ∨ (i ∈ ids ∧ (lookupId md.data i).isSome) := by
    intro i
    simp only [TrackingMetadata.add_tracking]
    exact mem_addTracking_foldl md.data ids md.tracking i
  refine ⟨hmem, fun i hi => ?_, rfl⟩
  rcases (hmem i).mp hi with h | ⟨_, h⟩
  · exact hsub i h
  · exact h

def mdC6 : TrackingMetadata := { mdDefault with data := [(xId, PyValue.int 1)] }

/-- C6 witness: with `data = {x: 1}`, adding `{x, y}` tracks `x` and
silently drops `y`. -/
theorem C6_witness :
    xId ∈ (mdC6.add_tracking [xId, yId]).tracking ∧
    yId ∉ (mdC6.add_tracking [xId, yId]).tracking ∧
    (lookupId mdC6.data xId).isSome := by
  have H := C6_tracking_subset_domain mdC6 [xId, yId]
    (by intro i hi; simp [mdC6, mdDefault] at hi)
  refine ⟨(H.1 xId).mpr (Or.inr ⟨by simp, by decide⟩), fun hy => ?_, by decide⟩
  rcases (H.1 yId).mp hy with h | ⟨_, h⟩
  · simp [mdC6, mdDefault] at h
  · exact absurd h (by decide)

/-! ### Lemmas about the pairwise diff `get_and_update_var_changes` -/

theorem addVarAppearance_fields (n : Node) (a : VarAppearance) :
    (n.addVarAppearance a).frame_id = n.frame_id ∧
    (n.addVarAppearance a).name = n.name ∧
    (n.addVarAppearance a).metadata.var_appearances
      = n.metadata.var_appearances ++ [a] ∧
    (n.addVarAppearance a).metadata.var_modifications
      = n.metadata.var_modifications ∧
    (n.addVarAppearance a).metadata.var_switches = n.metadata.var_switches ∧
    (n.addVarAppearance a).metadata.tracking = n.metadata.tracking ∧
    (n.addVarAppearance a).metadata.data = n.metadata.data :=
  ⟨rfl, rfl, rfl, rfl, rfl, rfl, rfl⟩

theorem addVarModification_fields (n : Node) (m : VarModification) :
    (n.addVarModification m).frame_id = n.frame_id ∧
    (n.addVarModification m).name = n.name ∧
    (n.addVarModification m).metadata.var_appearances
      = n.metadata.var_appearances ∧
    (n.addVarModification m).metadata.var_modifications
      = n.metadata.var_modifications ++ [m] ∧
    (n.addVarModification m).metadata.var_switches = n.metadata.var_switches ∧
    (n.addVarModification m).metadata.tracking = n.metadata.tracking ∧
    (n.addVarModification m).metadata.data = n.metadata.data :=
  ⟨rfl, rfl, rfl, rfl, rfl, rfl, rfl⟩

/-- Full account of one run of the comparison loop: the returned node is
the receiver with the yielded appearances and modifications appended (in
yield order) and every other field untouched, and every yielded event is
about an identifier from the iterated list. -/
theorem guvcGo_spec (odata : List (ID × PyValue)) (ids : List ID) :
    ∀ (s fin : Node) (evs : List VarChange),
      guvcGo odata s ids = Except.ok (fin, evs) →
      fin.frame_id = s.frame_id ∧ fin.name = s.name ∧
      fin.metadata.var_appearances
        = s.metadata.var_appearances ++ appearancesOf evs ∧
      fin.metadata.var_modifications
        = s.metadata.var_modifications ++ modificationsOf evs ∧
      fin.metadata.var_switches = s.metadata.var_switches ∧
      fin.metadata.tracking = s.metadata.tracking ∧
      fin.metadata.data = s.metadata.data ∧
      (∀ e ∈ evs, changeId e ∈ ids) := by
  induction ids with
  | nil =>
    intro s fin evs h
    simp only [guvcGo] at h
    injection h with h1
    injection h1 with h2 h3
    subst h2; subst h3
    simp [appearancesOf, modificationsOf]
  | cons var_id rest ih =>
    intro s fin evs h
    simp only [guvcGo] at h
    split at h
    · exact absurd h (by simp)
    · split at h
      · split at h
        · exact absurd h (by simp)
        · rename_i x2 new_value hget x1 hold x0 fin' evs' hrec
          injection h with h1
          injection h1 with hfin hevs
          subst hfin; subst hevs
          have IH := ih _ _ _ hrec
          have hf := addVarAppearance_fields s ⟨var_id, new_value⟩
          refine ⟨IH.1.trans hf.1, IH.2.1.trans hf.2.1, ?_, ?_, ?_, ?_, ?_, ?_⟩
          · rw [IH.2.2.1, hf.2.2.1]
            simp [appearancesOf, List.filterMap_cons]
          · rw [IH.2.2.2.1, hf.2.2.2.1]
            simp [modificationsOf, List.filterMap_cons]
          · exact IH.2.2.2.2.1.trans hf.2.2.2.2.1
          · exact IH.2.2.2.2.2.1.trans hf.2.2.2.2.2.1
          · exact IH.2.2.2.2.2.2.1.trans hf.2.2.2.2.2.2
          · intro e he
            rcases List.mem_cons.mp he with rfl | he'
            · exact List.mem_cons_self _ _
            · exact List.mem_cons_of_mem _ (IH.2.2.2.2.2.2.2 e he')
      · split at h
        · split at h
          · exact absurd h (by simp)
          · rename_i x2 new_value hget x1 old_value hold hdiff x0 fin' evs' hrec
            injection h with h1
            injection h1 with hfin hevs
            subst hfin; subst hevs
            have IH := ih _ _ _ hrec
            have hf := addVarModification_fields s ⟨var_id, old_value, new_value⟩
            refine ⟨IH.1.trans hf.1, IH.2.1.trans hf.2.1, ?_, ?_, ?_, ?_, ?_, ?_⟩
            · rw [IH.2.2.1, hf.2.2.1]
              simp [appearancesOf, List.filterMap_cons]
            · rw [IH.2.2.2.1, hf.2.2.2.1]
              simp [modificationsOf, List.filterMap_cons]
            · exact IH.2.2.2.2.1.trans hf.2.2.2.2.1
            · exact IH.2.2.2.2.2.1.trans hf.2.2.2.2.2.1
            · exact IH.2.2.2.2.2.2.1.trans hf.2.2.2.2.2.2
            · intro e he
              rcases List.mem_cons.mp he with rfl | he'
              · exact List.mem_cons_self _ _
              · exact List.mem_cons_of_mem _ (IH.2.2.2.2.2.2.2 e he')
        · have IH := ih _ _ _ h
          refine ⟨IH.1, IH.2.1, IH.2.2.1, IH.2.2.2.1, IH.2.2.2.2.1,
            IH.2.2.2.2.2.1, IH.2.2.2.2.2.2.1, ?_⟩
          intro e he
          exact List.mem_cons_of_mem _ (IH.2.2.2.2.2.2.2 e he)

/-! ### Claims C2 and C3: which node owns the emitted events -/

def nEarlier : Node := { frame_id := fid0, name := "0", metadata := mdDefault }

def nLater : Node :=
  { frame_id := fid0, name := "1",
    metadata := { mdDefault with
      data := [(xId, PyValue.int 1)], tracking := [xId] } }

def nEarlierAfter : Node :=
  { nEarlier with metadata :=
      { nEarlier.metadata with var_appearances := [⟨xId, PyValue.int 1⟩] } }

/-- C2 counterexample: on the concrete pair where the later step tracks a
fresh `x = 1`, the diff emits `Appearance(x, 1)` but appends it to the
EARLIER step's metadata (the receiver), leaving the later step's sequences
empty — refuting "appended to the later step ... earlier left unchanged". -/
theorem C2_counterexample :
    Node.get_and_update_var_changes nEarlier nLater =
      Except.ok (nEarlierAfter, [VarChange.appearance ⟨xId, PyValue.int 1⟩]) ∧
    ¬ nEarlierAfter.metadata.var_appearances = nEarlier.metadata.var_appearances ∧
    nLater.metadata.var_appearances = [] ∧
    nLater.metadata.var_modifications = [] := by
  refine ⟨rfl, ?_, rfl, rfl⟩
  simp [nEarlierAfter, nEarlier, mdDefault]

/-- C2 (amended): every change event emitted by the pairwise diff is
appended to the EARLIER step of the pair (the receiver `self`, the diff
baseline) — appearances and modifications in yield order — while the later
step's event sequences are left unchanged (the call returns only the
updated earlier node and never mutates `other`). -/
theorem C2_events_appended_to_earlier (selfN other fin : Node)
    (evs : List VarChange)
    (h : Node.get_and_update_var_changes selfN other = Except.ok (fin, evs)) :
    fin.metadata.var_appearances
      = selfN.metadata.var_appearances ++ appearancesOf evs ∧
    fin.metadata.var_modifications
      = selfN.metadata.var_modifications ++ modificationsOf evs ∧
    fin.metadata.var_switches = selfN.metadata.var_switches := by
  unfold Node.get_and_update_var_changes at h
  by_cases hf : selfN.frame_id = other.frame_id
  · rw [if_pos hf] at h
    have H := guvcGo_spec other.metadata.data other.metadata.tracking _ _ _ h
    exact ⟨H.2.2.1, H.2.2.2.1, H.2.2.2.2.1⟩
  · rw [if_neg hf] at h
    exact absurd h (by simp)

/-- C2 witness: the amended statement applied at the concrete pair. -/
theorem C2_witness :
    nEarlierAfter.metadata.var_appearances
      = nEarlier.metadata.var_appearances
        ++ appearancesOf [VarChange.appearance ⟨xId, PyValue.int 1⟩] :=
  (C2_events_appended_to_earlier nEarlier nLater nEarlierAfter
    [VarChange.appearance ⟨xId, PyValue.int 1⟩] rfl).1

/-- C3 counterexample: after the same concrete run, the step that owns the
recorded `Appearance(x, 1)` (the earlier node) does not have `x` in its own
tracking set, refuting "every recorded event's identifier is in the owning
step's tracking". -/
theorem C3_counterexample :
    Node.get_and_update_var_changes nEarlier nLater =
      Except.ok (nEarlierAfter, [VarChange.appearance ⟨xId, PyValue.int 1⟩]) ∧
    (⟨xId, PyValue.int 1⟩ : VarAppearance) ∈ nEarlierAfter.metadata.var_appearances ∧
    xId ∉ nEarlierAfter.metadata.tracking := by
  refine ⟨rfl, by simp [nEarlierAfter, nEarlier, mdDefault], ?_⟩
  simp [nEarlierAfter, nEarlier, mdDefault]

/-- C3 (amended): every change event emitted by a run of the pairwise diff
has its identifier in the tracking set of the LATER node of the pair (the
argument `other`, whose tracking drives the loop); the events are recorded
on the earlier node, whose own tracking set need not contain them. -/
theorem C3_event_ids_in_later_tracking (selfN other fin : Node)
    (evs : List VarChange)
    (h : Node.get_and_update_var_changes selfN other = Except.ok (fin, evs)) :
    ∀ e ∈ evs, changeId e ∈ other.metadata.tracking := by
  unfold Node.get_and_update_var_changes at h
  by_cases hf : selfN.frame_id = other.frame_id
  · rw [if_pos hf] at h
    exact (guvcGo_spec other.metadata.data other.metadata.tracking _ _ _ h).2.2.2.2.2.2.2
  · rw [if_neg hf] at h
    exact absurd h (by simp)

/-- C3 witness: the amended statement applied at the concrete pair. -/
theorem C3_witness :
    changeId (VarChange.appearance ⟨xId, PyValue.int 1⟩) ∈ nLater.metadata.tracking :=
  C3_event_ids_in_later_tracking nEarlier nLater nEarlierAfter
    [VarChange.appearance ⟨xId, PyValue.int 1⟩] rfl
    (VarChange.appearance ⟨xId, PyValue.int 1⟩) (by simp)

/-! ### Claim C1: the diff never emits a Switch -/

def nSwitchEarlier : Node := { frame_id := fid0, name := "2", metadata := mdDefault }

def nSwitchLater : Node :=
  { frame_id := fid0, name := "3",
    metadata := { mdDefault with
      data := [(yId, PyValue.int 5)], tracking := [yId],
      param_to_arg := Option.some [(pId, [yId])],
      arg_to_param := Option.some [(yId, pId)] } }

def nSwitchEarlierAfter : Node :=
  { nSwitchEarlier with metadata :=
      { nSwitchEarlier.metadata with var_appearances := [⟨yId, PyValue.int 5⟩] } }

/-- C1: evaluation of the code at the switch scenario. The tracked id `y`
is absent from the earlier snapshot, is among the arguments returned by
`get_args()` (`param_to_arg = {p: {y}}`, `arg_to_param[y] = p`), and yet
`get_and_update_var_changes` emits `Appearance(y, 5)` — no `Switch(y, p, 5)`
is ever produced and both nodes' `var_switches` stay empty. -/
theorem C1_no_switch_emitted :
    nSwitchLater.metadata.get_args = Except.ok [yId] ∧
    argLookup nSwitchLater.metadata yId = Option.some pId ∧
    lookupId nSwitchEarlier.metadata.data yId = Option.none ∧
    Node.get_and_update_var_changes nSwitchEarlier nSwitchLater =
      Except.ok (nSwitchEarlierAfter, [VarChange.appearance ⟨yId, PyValue.int 5⟩]) ∧
    nSwitchEarlierAfter.metadata.var_switches = [] ∧
    nSwitchLater.metadata.var_switches = [] :=
  ⟨rfl, rfl, rfl, rfl, rfl, rfl⟩

/-! ### Claim C5: the missing return in the pre-return guard -/

def nC5 : Node :=
  { frame_id := fid0, name := "4",
    metadata := { mdDefault with
      data := [(xId, PyValue.int 1)], tracking := [xId] } }

def nC5empty : Node :=
  { frame_id := fid0, name := "5",
    metadata := { mdDefault with data := [(xId, PyValue.int 1)] } }

/-- C5: evaluation of the code at the failing input. With
`data_before_return = None` and a non-empty tracking set, the guard
`if self.data_before_return is None: pass` does not return, so the loop
subscripts `None` and the call fails with TypeError instead of recording
nothing; only an empty tracking set terminates cleanly. -/
theorem C5_missing_return_guard :
    nC5.metadata.data_before_return = Option.none ∧
    nC5.metadata.tracking = [xId] ∧
    Node.update_var_changes_before_return nC5 = Except.error PyErr.typeError ∧
    Node.update_var_changes_before_return nC5empty = Except.ok nC5empty :=
  ⟨rfl, rfl, rfl, rfl⟩

/-! ### Claim C7: the pre-return modification diff -/

theorem uvcbrGo_mods_mono (dbr : Option (List (ID × PyValue))) (ids : List ID) :
    ∀ (s res : Node), uvcbrGo dbr s ids = Except.ok res →
      ∀ v ∈ s.metadata.var_modifications, v ∈ res.metadata.var_modifications := by
  induction ids with
  | nil =>
    intro s res h
    simp only [uvcbrGo] at h
    injection h with h1
    subst h1
    exact fun v hv => hv
  | cons var_id rest ih =>
    intro s res h
    simp only [uvcbrGo] at h
    split at h
    · exact absurd h (by simp)
    · split at h
      · intro v hv
        exact ih _ _ h v hv
      · split at h
        · intro v hv
          refine ih _ _ h v ?_
          show v ∈ s.metadata.var_modifications ++ [_]
          exact List.mem_append.mpr (Or.inl hv)
        · intro v hv
          exact ih _ _ h v hv

theorem uvcbrGo_mod_mem (m : List (ID × PyValue)) (ids : List ID) :
    ∀ (s res : Node), uvcbrGo (Option.some m) s ids = Except.ok res →
      ∀ id o n, id ∈ ids → lookupId s.metadata.data id = Option.some o →
        lookupId m id = Option.some n → has_diff n o = true →
        (⟨id, o, n⟩ : VarModification) ∈ res.metadata.var_modifications := by
  induction ids with
  | nil =>
    intro s res h id o n hid
    exact absurd hid (by simp)
  | cons var_id rest ih =>
    intro s res h id o n hid ho hn hdiff
    simp only [uvcbrGo] at h
    split at h
    · exact absurd h (by simp)
    · rename_i x1 new_value hget
      split at h
      · rename_i hold
        rcases List.mem_cons.mp hid with rfl | hid'
        · rw [ho] at hold
          exact absurd hold (by simp)
        · exact ih _ _ h id o n hid' ho hn hdiff
      · rename_i old_value hold
        have hnewval : dbrGet (Option.some m) var_id = Except.ok new_value := hget
        split at h
        · rename_i hcond
          rcases List.mem_cons.mp hid with rfl | hid'
          · have ho' : o = old_value := by
              rw [ho] at hold
              exact Option.some.inj hold
            have hn' : n = new_value := by
              simp only [dbrGet, getItem, hn] at hnewval
              exact Except.ok.inj hnewval
            subst ho'; subst hn'
            refine uvcbrGo_mods_mono _ _ _ _ h _ ?_
            show (⟨id, o, n⟩ : VarModification) ∈ s.metadata.var_modifications ++ [⟨id, o, n⟩]
            exact List.mem_append.mpr (Or.inr (by simp))
          · exact ih _ _ h id o n hid' ho hn hdiff
        · rename_i hcond
          rcases List.mem_cons.mp hid with rfl | hid'
          · have ho' : o = old_value := by
              rw [ho] at hold
              exact Option.some.inj hold
            have hn' : n = new_value := by
              simp only [dbrGet, getItem, hn] at hnewval
              exact Except.ok.inj hnewval
            subst ho'; subst hn'
            exact absurd hdiff hcond
          · exact ih _ _ h id o n hid' ho hn hdiff

/-- C7: for a scope's terminal step with `data_before_return` set, the
pre-return diff compares `data` against `data_before_return` over the
tracked identifiers and appends `Modification(id, old, new)` to that step
whenever the two values deeply differ. -/
theorem C7_prereturn_modification (selfN res : Node) (m : List (ID × PyValue))
    (hdbr : selfN.metadata.data_before_return = Option.some m)
    (hrun : Node.update_var_changes_before_return selfN = Except.ok res) :
    ∀ id o n, id ∈ selfN.metadata.tracking →
      lookupId selfN.metadata.data id = Option.some o →
      lookupId m id = Option.some n → has_diff n o = true →
      (⟨id, o, n⟩ : VarModification) ∈ res.metadata.var_modifications := by
  unfold Node.update_var_changes_before_return at hrun
  rw [hdbr] at hrun
  exact fun id o n hid ho hn hd =>
    uvcbrGo_mod_mem m selfN.metadata.tracking selfN res hrun id o n hid ho hn hd

def nC7 : Node :=
  { frame_id := fid0, name := "6",
    metadata := { mdDefault with
      tracking := [xId], data := [(xId, PyValue.int 1)],
      data_before_return := Option.some [(xId, PyValue.int 2)] } }

def nC7after : Node :=
  { nC7 with metadata :=
      { nC7.metadata with var_modifications := [⟨xId, PyValue.int 1, PyValue.int 2⟩] } }

/-- C7 witness: Scenario E — `tracking = {x}`, `data = {x: 1}`,
`data_before_return = {x: 2}` yields `Modification(x, 1, 2)` appended to
that step. -/
theorem C7_witness :
    (⟨xId, PyValue.int 1, PyValue.int 2⟩ : VarModification)
      ∈ nC7after.metadata.var_modifications :=
  C7_prereturn_modification nC7 nC7after [(xId, PyValue.int 2)] rfl rfl
    xId (PyValue.int 1) (PyValue.int 2) (by decide) (by decide) (by decide) (by decide)

/-! ### Claim C4: target resolution in `Flow._update_target_id` -/

def tgtC4 : Node :=
  { frame_id := fid0, name := "7",
    metadata := { mdDefault with data := [(xId, PyValue.int 3)] } }

def mod1plus2 : PyModule :=
  ⟨[PyStmt.exprStmt (PyExpr.call
      (PyExpr.attributeExpr (PyExpr.name "cyberbrain") "register")
      [PyExpr.binOp (PyExpr.constant 1) (PyExpr.constant 2)])]⟩

def modTwoArgs : PyModule :=
  ⟨[PyStmt.exprStmt (PyExpr.call
      (PyExpr.attributeExpr (PyExpr.name "cyberbrain") "register")
      [PyExpr.name "x", PyExpr.name "y"])]⟩

def tgtC4after : Node :=
  { tgtC4 with metadata := { tgtC4.metadata with tracking := [xId] } }

/-- C4 counterexample: on `cyberbrain.register(1 + 2)` (non-identifier
argument) resolution fails with a plain AttributeError, not the structured
MalformedTargetError the claim demands; and on
`cyberbrain.register(x, y)` (two arguments) resolution does not fail at
all — it succeeds and tracks the first argument. -/
theorem C4_counterexample :
    updateTargetId mod1plus2 tgtC4 = Except.error PyErr.attributeError ∧
    (Except.error PyErr.attributeError : Except PyErr Node)
      ≠ Except.error PyErr.malformedTargetError ∧
    updateTargetId modTwoArgs tgtC4 = Except.ok tgtC4after := by
  refine ⟨rfl, by simp, rfl⟩

/-- C4 (amended): target resolution succeeds exactly when the parsed
source's first statement is an expression statement whose value is a call
on an attribute of the bare name `cyberbrain` (the attribute name itself is
not checked) whose first argument is a bare identifier — extra arguments
are ignored; on success `ID(name, frame_id)` is handed to `add_tracking`
(so it is tracked only if present in the target's data); on every mismatch
it fails with a low-level AttributeError, IndexError or AssertionError —
never with a structured MalformedTargetError, which does not exist in the
code. -/
theorem C4_target_resolution_characterization (m : PyModule) (tgt : Node) :
    (∃ attr a args' stail,
      m.body = PyStmt.exprStmt (PyExpr.call
          (PyExpr.attributeExpr (PyExpr.name "cyberbrain") attr)
          (PyExpr.name a :: args')) :: stail ∧
      updateTargetId m tgt = Except.ok
        { tgt with metadata := tgt.metadata.add_tracking [⟨a, tgt.frame_id⟩] }) ∨
    (updateTargetId m tgt = Except.error PyErr.attributeError ∨
     updateTargetId m tgt = Except.error PyErr.indexError ∨
     updateTargetId m tgt = Except.error PyErr.assertionError) := by
  obtain ⟨body⟩ := m
  cases body with
  | nil => exact Or.inr (Or.inr (Or.inl rfl))
  | cons stmt stail =>
    cases stmt with
    | passStmt => exact Or.inr (Or.inl rfl)
    | exprStmt v =>
      cases v with
      | name s => exact Or.inr (Or.inl rfl)
      | attributeExpr fv attr => exact Or.inr (Or.inl rfl)
      | constant k => exact Or.inr (Or.inl rfl)
      | binOp a b => exact Or.inr (Or.inl rfl)
      | call f args =>
        cases f with
        | name s => exact Or.inr (Or.inl rfl)
        | call g gargs => exact Or.inr (Or.inl rfl)
        | constant k => exact Or.inr (Or.inl rfl)
        | binOp a b => exact Or.inr (Or.inl rfl)
        | attributeExpr fv attr =>
          cases fv with
          | attributeExpr u w => exact Or.inr (Or.inl rfl)
          | call g gargs => exact Or.inr (Or.inl rfl)
          | constant k => exact Or.inr (Or.inl rfl)
          | binOp a b => exact Or.inr (Or.inl rfl)
          | name fid =>
            by_cases hfid : fid = "cyberbrain"
            · subst hfid
              cases args with
              | nil => exact Or.inr (Or.inr (Or.inl rfl))
              | cons a0 args' =>
                cases a0 with
                | name a =>
                  exact Or.inl ⟨attr, a, args', stail, rfl, rfl⟩
                | attributeExpr u w => exact Or.inr (Or.inl rfl)
                | call g gargs => exact Or.inr (Or.inl rfl)
                | constant k => exact Or.inr (Or.inl rfl)
                | binOp a b => exact Or.inr (Or.inl rfl)
            · refine Or.inr (Or.inr (Or.inr ?_))
              simp [updateTargetId, listGet0, stmtValue, exprFunc, exprValue,
                exprId, Except.bind, hfid]

/-! ### Claim C8: metadata construction -/

def dummyParse : String → PyModule := fun _ => ⟨[]⟩

def dummyToSource : PyModule → String := fun _ => ""

/-- The `Except.ok`-ness of a construction attempt, as a boolean. -/
def exceptOk {α : Type} : Except PyErr α → Bool
  | Except.ok _ => true
  | Except.error _ => false

/-- The metadata record a successful construction produces, given the
resolved `code_str` and `code_ast` (proof plumbing for C8). -/
def mdBuilt (data : List (ID × PyValue)) (pta : Option (List (ID × List ID)))
    (dbr : Option (List (ID × PyValue))) (cs : String) (ca : PyModule) :
    TrackingMetadata :=
  { code_str := cs
    code_ast := ca
    param_to_arg := pta
    arg_to_param :=
      if dictTruthy pta then Option.some (buildArgToParam (pta.getD []))
      else Option.none
    tracking := []
    var_appearances := []
    var_modifications := []
    var_switches := []
    data := data
    data_before_return := dbr }

/-- C8 counterexample: constructing with `code_str = ""` (a supplied
source text) and no `code_ast` fails with ValueError, because Python
truthiness makes the empty string count as "not given" — refuting "fails
if and only if neither is supplied". -/
theorem C8_counterexample :
    TrackingMetadata.mk? [] (Option.some "") Option.none Option.none
        Option.none dummyParse dummyToSource = Except.error PyErr.valueError ∧
    (Option.some "" : Option String) ≠ Option.none := by
  exact ⟨rfl, by simp⟩

/-- C8 (amended): construction fails (with the code's ValueError, the
failure the spec calls ConfigurationError) exactly when no truthy source is
given — i.e. `code_ast` is absent and `code_str` is absent OR EMPTY; when a
non-empty `code_str` or a `code_ast` is supplied, construction succeeds and
the missing side is derived (`code_ast` by parsing `code_str`, `code_str`
by un-parsing `code_ast`), so both are populated afterwards. -/
theorem C8_construction_characterization (data : List (ID × PyValue))
    (cs : Option String) (ca : Option PyModule)
    (pta : Option (List (ID × List ID))) (dbr : Option (List (ID × PyValue)))
    (parse : String → PyModule) (toSource : PyModule → String) :
    exceptOk (TrackingMetadata.mk? data cs ca pta dbr parse toSource)
      = (strTruthy cs || ca.isSome) ∧
    (strTruthy cs = false → ca = Option.none →
      TrackingMetadata.mk? data cs ca pta dbr parse toSource
        = Except.error PyErr.valueError) ∧
    (∀ s, cs = Option.some s → s.isEmpty = false →
      ∃ md, TrackingMetadata.mk? data cs ca pta dbr parse toSource
          = Except.ok md ∧
        md.code_str = s ∧
        md.code_ast = (match ca with
                       | Option.some a => a
                       | Option.none => parse s)) ∧
    (∀ a, ca = Option.some a → strTruthy cs = false →
      ∃ md, TrackingMetadata.mk? data cs ca pta dbr parse toSource
          = Except.ok md ∧
        md.code_str = toSource a ∧ md.code_ast = a) := by
  cases cs with
  | none =>
    cases ca with
    | none =>
      refine ⟨rfl, fun _ _ => rfl, fun s hs => ?_, fun a ha => ?_⟩
      · exact absurd hs (by simp)
      · exact absurd ha (by simp)
    | some a =>
      refine ⟨rfl, fun _ h => ?_, fun s hs => ?_, fun a' ha' _ => ?_⟩
      · exact absurd h (by simp)
      · exact absurd hs (by simp)
      · obtain rfl : a = a' := Option.some.inj ha'
        exact ⟨_, rfl, rfl, rfl⟩
  | some s =>
    by_cases hs : s.isEmpty
    · cases ca with
      | none =>
        refine ⟨?_, fun _ _ => ?_, fun s' hs' hs'' => ?_, fun a ha => ?_⟩
        · simp [TrackingMetadata.mk?, strTruthy, hs, exceptOk]
        · simp [TrackingMetadata.mk?, strTruthy, hs]
        · obtain rfl : s = s' := Option.some.inj hs'
          exact absurd hs'' (by simp [hs])
        · exact absurd ha (by simp)
      | some a =>
        refine ⟨?_, fun _ h => ?_, fun s' hs' hs'' => ?_, fun a' ha' hT => ?_⟩
        · simp [TrackingMetadata.mk?, strTruthy, hs, exceptOk]
        · exact absurd h (by simp)
        · obtain rfl : s = s' := Option.some.inj hs'
          exact absurd hs'' (by simp [hs])
        · obtain rfl : a = a' := Option.some.inj ha'
          refine ⟨mdBuilt data pta dbr (toSource a) a, ?_, rfl, rfl⟩
          simp [TrackingMetadata.mk?, strTruthy, hs, mdBuilt]
    · have hT : strTruthy (Option.some s) = true := by simp [strTruthy, hs]
      refine ⟨?_, fun hT' _ => ?_, fun s' hs' _ => ?_, fun a ha hT' => ?_⟩
      · simp [TrackingMetadata.mk?, strTruthy, hs, exceptOk]
      · rw [hT] at hT'; exact absurd hT' (by simp)
      · obtain rfl : s = s' := Option.some.inj hs'
        cases ca with
        | none =>
          refine ⟨mdBuilt data pta dbr s (parse s), ?_, rfl, rfl⟩
          simp [TrackingMetadata.mk?, strTruthy, hs, mdBuilt]
        | some a =>
          refine ⟨mdBuilt data pta dbr s a, ?_, rfl, rfl⟩
          simp [TrackingMetadata.mk?, strTruthy, hs, mdBuilt]
      · rw [hT] at hT'; exact absurd hT' (by simp)

def mdC8 : TrackingMetadata :=
  match TrackingMetadata.mk? [] (Option.some "cyberbrain.register(x)")
      Option.none Option.none Option.none dummyParse dummyToSource with
  | Except.ok md => md
  | Except.error _ => mdDefault

/-- C8 witness: constructing from a non-empty source text alone succeeds
and populates both fields, deriving `code_ast` by parsing. -/
theorem C8_witness :
    mdC8.code_str = "cyberbrain.register(x)" ∧
    mdC8.code_ast = dummyParse "cyberbrain.register(x)" := by
  obtain ⟨md, hmk, hcs, hca⟩ :=
    (C8_construction_characterization [] (Option.some "cyberbrain.register(x)")
      Option.none Option.none Option.none dummyParse dummyToSource).2.2.1
      "cyberbrain.register(x)" rfl (by decide)
  have hmd : mdC8 = md := by
    simp only [mdC8, hmk]
  rw [hmd]
  exact ⟨hcs, hca⟩

/-! ### Claim C9: `get_args` and the derived inverse `arg_to_param` -/

theorem lookup_dictInsert (m : List (ID × ID)) (k v i : ID) :
    lookupId (dictInsert m k v) i
      = if k = i then Option.some v else lookupId m i := by
  induction m with
  | nil => simp [dictInsert, lookupId]
  | cons kv rest ih =>
    obtain ⟨k', v'⟩ := kv
    simp only [dictInsert]
    by_cases hk : k' = k
    · subst hk
      by_cases hi : k' = i
      · simp [lookupId, hi]
      · simp [lookupId, hi]
    · simp only [if_neg hk]
      by_cases hi : k' = i
      · have hki : ¬(k = i) := fun h => hk (h ▸ hi.symm ▸ rfl)
        simp [lookupId, hi, hki]
      · simp [lookupId, hi, ih]

theorem lookup_foldl_ins (p : ID) (args : List ID) :
    ∀ (m : List (ID × ID)) (a : ID),
      lookupId (args.foldl (fun m' arg => dictInsert m' arg p) m) a
        = if a ∈ args then Option.some p else lookupId m a := by
  induction args with
  | nil => simp
  | cons arg rest ih =>
    intro m a
    simp only [List.foldl_cons]
    rw [ih]
    by_cases ha : a ∈ rest
    · simp [ha]
    · simp only [if_neg ha]
      rw [lookup_dictInsert]
      simp only [List.mem_cons]
      by_cases h1 : arg = a
      · subst h1; simp
      · have h2 : ¬(a = arg) := fun h => h1 h.symm
        simp [h1, h2, ha]

theorem buildA_fwd (l : List (ID × List ID)) :
    ∀ (m : List (ID × ID)) (a p : ID),
      lookupId (l.foldl
          (fun m pa => pa.2.foldl (fun m' arg => dictInsert m' arg pa.1) m) m) a
        = Option.some p →
      (∃ largs, (p, largs) ∈ l ∧ a ∈ largs) ∨ lookupId m a = Option.some p := by
  induction l with
  | nil => intro m a p h; exact Or.inr h
  | cons pa rest ih =>
    intro m a p h
    obtain ⟨q, qargs⟩ := pa
    simp only [List.foldl_cons] at h
    rcases ih _ a p h with hrest | hm
    · obtain ⟨largs, hl, hal⟩ := hrest
      exact Or.inl ⟨largs, List.mem_cons_of_mem _ hl, hal⟩
    · rw [lookup_foldl_ins] at hm
      by_cases ha : a ∈ qargs
      · rw [if_pos ha] at hm
        obtain rfl : q = p := Option.some.inj hm
        exact Or.inl ⟨qargs, by simp, ha⟩
      · rw [if_neg ha] at hm
        exact Or.inr hm

theorem buildA_preserve (l : List (ID × List ID)) :
    ∀ (m : List (ID × ID)) (a p : ID),
      lookupId m a = Option.some p →
      (∀ q qargs, (q, qargs) ∈ l → a ∈ qargs → q = p) →
      lookupId (l.foldl
          (fun m pa => pa.2.foldl (fun m' arg => dictInsert m' arg pa.1) m) m) a
        = Option.some p := by
  induction l with
  | nil => intro m a p h _; exact h
  | cons pa rest ih =>
    intro m a p h hfix
    obtain ⟨q, qargs⟩ := pa
    simp only [List.foldl_cons]
    apply ih
    · rw [lookup_foldl_ins]
      by_cases ha : a ∈ qargs
      · rw [if_pos ha, hfix q qargs (by simp) ha]
      · rw [if_neg ha]; exact h
    · intro q' qargs' hq' ha'
      exact hfix q' qargs' (List.mem_cons_of_mem _ hq') ha'

theorem buildA_bwd (l : List (ID × List ID)) :
    ∀ (m : List (ID × ID)) (a p : ID),
      (∀ pa1 ∈ l, ∀ pa2 ∈ l, ∀ x ∈ pa1.2, x ∈ pa2.2 → pa1 = pa2) →
      (∃ largs, (p, largs) ∈ l ∧ a ∈ largs) →
      lookupId (l.foldl
          (fun m pa => pa.2.foldl (fun m' arg => dictInsert m' arg pa.1) m) m) a
        = Option.some p := by
  induction l with
  | nil =>
    intro m a p _ hex
    obtain ⟨largs, hl, _⟩ := hex
    exact absurd hl (by simp)
  | cons pa rest ih =>
    intro m a p huniq hex
    obtain ⟨q, qargs⟩ := pa
    obtain ⟨largs, hmem, hal⟩ := hex
    simp only [List.foldl_cons]
    rcases List.mem_cons.mp hmem with heq | hrest
    · obtain ⟨rfl, rfl⟩ : q = p ∧ qargs = largs := by
        have h1 := congrArg Prod.fst heq
        have h2 := congrArg Prod.snd heq
        exact ⟨h1.symm, h2.symm⟩
      apply buildA_preserve
      · rw [lookup_foldl_ins, if_pos hal]
      · intro q' qargs' hq' ha'
        have := huniq (q, qargs) (by simp) (q', qargs')
          (List.mem_cons_of_mem _ hq') a hal ha'
        exact (congrArg Prod.fst this).symm
    · apply ih
      · intro pa1 h1 pa2 h2 x hx1 hx2
        exact huniq pa1 (List.mem_cons_of_mem _ h1) pa2
          (List.mem_cons_of_mem _ h2) x hx1 hx2
      · exact ⟨largs, hrest, hal⟩

theorem mem_unionArgs (l : List (ID × List ID)) (a : ID) :
    a ∈ l.foldr (fun pa acc => pa.2 ++ acc) []
      ↔ ∃ p largs, (p, largs) ∈ l ∧ a ∈ largs := by
  induction l with
  | nil => simp
  | cons pa rest ih =>
    obtain ⟨p', args'⟩ := pa
    simp only [List.foldr_cons, List.mem_append, ih, List.mem_cons]
    constructor
    · rintro (ha | ⟨p, largs, hl, hal⟩)
      · exact ⟨p', args', Or.inl rfl, ha⟩
      · exact ⟨p, largs, Or.inr hl, hal⟩
    · rintro ⟨p, largs, heq | hl, hal⟩
      · obtain ⟨rfl, rfl⟩ : p = p' ∧ largs = args' := by
          exact ⟨congrArg Prod.fst heq, congrArg Prod.snd heq⟩
        exact Or.inl hal
      · exact Or.inr ⟨p, largs, hl, hal⟩

/-- C9: when `param_to_arg` is provided and each argument identifier is
bound under exactly one entry, `get_args()` returns exactly the union of
the argument identifiers over all parameters, and the eagerly derived
`arg_to_param` maps an argument `a` to a parameter `p` iff `a` lies in
`param_to_arg[p]`. -/
theorem C9_get_args_and_inverse (data : List (ID × PyValue))
    (cs : Option String) (ca : Option PyModule) (l : List (ID × List ID))
    (dbr : Option (List (ID × PyValue))) (parse : String → PyModule)
    (toSource : PyModule → String) (md : TrackingMetadata)
    (hmk : TrackingMetadata.mk? data cs ca (Option.some l) dbr parse toSource
      = Except.ok md)
    (huniq : ∀ pa1 ∈ l, ∀ pa2 ∈ l, ∀ x ∈ pa1.2, x ∈ pa2.2 → pa1 = pa2) :
    (∃ args, md.get_args = Except.ok args ∧
      (∀ a, a ∈ args ↔ ∃ p largs, (p, largs) ∈ l ∧ a ∈ largs)) ∧
    (∀ a p, argLookup md a = Option.some p ↔ ∃ largs, (p, largs) ∈ l ∧ a ∈ largs) := by
  simp only [TrackingMetadata.mk?] at hmk
  split at hmk
  · exact absurd hmk (by simp)
  · injection hmk with hmd
    subst hmd
    constructor
    · exact ⟨_, rfl, fun a => mem_unionArgs l a⟩
    · intro a p
      cases l with
      | nil =>
        simp [argLookup, dictTruthy, buildArgToParam]
      | cons pa rest =>
        have hdt : dictTruthy (Option.some (pa :: rest)) = true := by
          simp [dictTruthy]
        constructor
        · intro h
          have h' : lookupId (buildArgToParam (pa :: rest)) a = Option.some p := by
            simpa [argLookup, hdt] using h
          rcases buildA_fwd (pa :: rest) [] a p h' with hfound | habs
          · exact hfound
          · exact absurd habs (by simp [lookupId])
        · intro hex
          have h' : lookupId (buildArgToParam (pa :: rest)) a = Option.some p :=
            buildA_bwd (pa :: rest) [] a p huniq hex
          simpa [argLookup, hdt] using h'

def ptaW : List (ID × List ID) := [(pId, [yId, zId]), (qId, [wId])]

def mdC9 : TrackingMetadata :=
  match TrackingMetadata.mk? [] (Option.some "s") Option.none
      (Option.some ptaW) Option.none dummyParse dummyToSource with
  | Except.ok md => md
  | Except.error _ => mdDefault

/-- C9 witness: with `param_to_arg = {p: {y, z}, q: {w}}`, `get_args()`
returns `{y, z, w}` and the derived inverse maps `y` back to `p`. -/
theorem C9_witness :
    argLookup mdC9 yId = Option.some pId ∧
    mdC9.get_args = Except.ok [yId, zId, wId] := by
  have H := C9_get_args_and_inverse [] (Option.some "s") Option.none ptaW
    Option.none dummyParse dummyToSource mdC9 rfl (by decide)
  exact ⟨(H.2 yId pId).mpr ⟨[yId, zId], by decide, by decide⟩, rfl⟩

/-! ### Claim C10: distinct node names from the `_name_gen` counter

`Node.__init__` sets `name = str(next(_name_gen))`; `str` of a natural is
its decimal representation, i.e. Lean's `Nat.repr`. We prove `Nat.repr`
injective by exhibiting a digit-parsing left inverse. -/

def charDigitVal (c : Char) : Nat :=
  if c = '0' then 0 else
  if c = '1' then 1 else
  if c = '2' then 2 else
  if c = '3' then 3 else
  if c = '4' then 4 else
  if c = '5' then 5 else
  if c = '6' then 6 else
  if c = '7' then 7 else
  if c = '8' then 8 else
  if c = '9' then 9 else 0

def digitsVal (l : List Char) : Nat :=
  l.foldl (fun acc c => 10 * acc + charDigitVal c) 0

def natDigitChars (n : Nat) : List Char :=
  if n < 10 then [Nat.digitChar n]
  else natDigitChars (n / 10) ++ [Nat.digitChar (n % 10)]
termination_by n
decreasing_by exact Nat.div_lt_self (by omega) (by omega)

theorem charDigitVal_digitChar : ∀ d, d < 10 → charDigitVal (Nat.digitChar d) = d := by
  decide

theorem toDigitsCore_append (f : Nat) : ∀ (n : Nat) (l : List Char),
    Nat.toDigitsCore 10 f n l = Nat.toDigitsCore 10 f n [] ++ l := by
  induction f with
  | zero => intro n l; simp [Nat.toDigitsCore]
  | succ f ih =>
    intro n l
    simp only [Nat.toDigitsCore]
    by_cases h : n / 10 = 0
    · simp [h]
    · simp only [if_neg h]
      rw [ih (n / 10) (Nat.digitChar (n % 10) :: l),
        ih (n / 10) [Nat.digitChar (n % 10)]]
      simp

theorem toDigitsCore_eq_natDigitChars : ∀ (f n : Nat), n < 10 ^ f → 0 < f →
    Nat.toDigitsCore 10 f n [] = natDigitChars n := by
  intro f
  induction f with
  | zero => intro n _ h0; exact absurd h0 (by omega)
  | succ f ih =>
    intro n hn _
    simp only [Nat.toDigitsCore]
    by_cases h : n / 10 = 0
    · have hlt : n < 10 := by omega
      rw [if_pos h, natDigitChars, if_pos hlt, Nat.mod_eq_of_lt hlt]
    · rw [if_neg h, toDigitsCore_append]
      have h1 : n / 10 < 10 ^ f := by
        rw [pow_succ] at hn
        omega
      have h2 : 0 < f := by
        rcases Nat.eq_zero_or_pos f with rfl | hf
        · simp at h1
          omega
        · exact hf
      have h3 : ¬n < 10 := by omega
      conv_rhs => rw [natDigitChars, if_neg h3]
      rw [ih (n / 10) h1 h2]

theorem digitsVal_append (l : List Char) (c : Char) :
    digitsVal (l ++ [c]) = 10 * digitsVal l + charDigitVal c := by
  simp [digitsVal, List.foldl_append]

theorem digitsVal_natDigitChars : ∀ n, digitsVal (natDigitChars n) = n := by
  intro n
  induction n using Nat.strong_induction_on with
  | _ n ih =>
    rw [natDigitChars]
    by_cases h : n < 10
    · rw [if_pos h]
      simp [digitsVal, charDigitVal_digitChar n h]
    · rw [if_neg h, digitsVal_append,
        ih (n / 10) (Nat.div_lt_self (by omega) (by omega)),
        charDigitVal_digitChar (n % 10) (by omega)]
      omega

theorem natRepr_injective (m n : Nat) (h : Nat.repr m = Nat.repr n) : m = n := by
  have hm : Nat.toDigits 10 m = natDigitChars m :=
    toDigitsCore_eq_natDigitChars (m + 1) m
      (Nat.lt_of_lt_of_le (Nat.lt_pow_self (by omega) m)
        (Nat.pow_le_pow_right (by omega) (Nat.le_succ m))) (by omega)
  have hn : Nat.toDigits 10 n = natDigitChars n :=
    toDigitsCore_eq_natDigitChars (n + 1) n
      (Nat.lt_of_lt_of_le (Nat.lt_pow_self (by omega) n)
        (Nat.pow_le_pow_right (by omega) (Nat.le_succ n))) (by omega)
  have hdata : Nat.toDigits 10 m = Nat.toDigits 10 n := by
    have := congrArg String.data h
    simpa [Nat.repr, List.asString] using this
  rw [hm, hn] at hdata
  have := congrArg digitsVal hdata
  rwa [digitsVal_natDigitChars, digitsVal_natDigitChars] at this

theorem mkNodes_names (specs : List (FrameID × TrackingMetadata)) :
    ∀ c : Nat, (mkNodes c specs).1.map Node.name
        = (List.range' c specs.length).map (fun k => toString k) ∧
      (mkNodes c specs).2 = c + specs.length := by
  induction specs with
  | nil => intro c; simp [mkNodes]
  | cons fm rest ih =>
    intro c
    obtain ⟨f, md⟩ := fm
    have h1 : (mkNodes c ((f, md) :: rest)).1
        = { frame_id := f, name := toString c, metadata := md }
            :: (mkNodes (c + 1) rest).1 := rfl
    have h2 : (mkNodes c ((f, md) :: rest)).2 = (mkNodes (c + 1) rest).2 := rfl
    constructor
    · rw [h1]
      simp only [List.map_cons, List.length_cons, List.range'_succ]
      rw [(ih (c + 1)).1]
    · rw [h2, (ih (c + 1)).2]
      simp [List.length_cons]
      omega

/-- C10: every constructed node is named by the process-wide counter at
construction time (`str(next(_name_gen))`): building any sequence of nodes
from any starting counter yields the decimal names of consecutive counter
values, all pairwise distinct, and leaves the counter advanced by the
number of nodes built — so any two distinct nodes have different names. -/
theorem C10_distinct_names (c : Nat) (specs : List (FrameID × TrackingMetadata)) :
    (mkNodes c specs).1.map Node.name
        = (List.range' c specs.length).map (fun k => toString k) ∧
    ((mkNodes c specs).1.map Node.name).Nodup ∧
    (mkNodes c specs).2 = c + specs.length := by
  obtain ⟨h1, h2⟩ := mkNodes_names specs c
  refine ⟨h1, ?_, h2⟩
  rw [h1]
  exact List.Nodup.map (fun a b hab => natRepr_injective a b hab)
    (List.nodup_range' c specs.length)

end Cyberbrain

